import Mathlib

/-!
Verification of the clio argument-parsing library (src/python/clio.py).

The Python source is shallowly embedded below.  Mutable objects are
modelled by explicit state passing:

* Python `Option` records live in an option table (`optTable`); the
  `options` dictionary maps each alias string to an index into that
  table, so that several aliases share one record exactly as several
  dictionary keys share one Python object.
* `sys.exit` / `err` calls are modelled as terminal outcomes
  (`exitOk` / `exitErr`) carrying the text that Python would print.
* Uncaught Python exceptions (`ParserError` raised from library
  internals, `IndexError`, `TypeError`, `KeyError`) are modelled by
  dedicated `raised` / `indexError` constructors.
* Python `float` values are modelled exactly as decimal numbers
  `num / 10 ^ exp` (trailing fractional zeros stripped, so the
  representation of a decimal literal is canonical); the IEEE rounding
  that Python applies on top of the decimal literal is not modelled.
  `int(...)` / `float(...)` are modelled on sign + digit literals,
  the shapes the library is given on a command line; exotic accepted
  forms (underscores, exponents, inf/nan, surrounding whitespace) are
  not modelled.
* Subcommand callbacks are opaque to the library (it only ever calls
  them); a callback is modelled as a numeric identifier, and `parse`
  returns the list of callback invocations `(id, parser argument)` it
  performed, in order.
* The `parse` loop is phrased with an explicit fuel argument (structural
  recursion) so that everything evaluates by kernel reduction; `parse`
  runs it with fuel `args.length`, and the termination theorem shows the
  `fuelOut` escape hatch is unreachable because every loop iteration
  consumes at least one token.
-/

set_option autoImplicit false

namespace Clio

/-- A single ASCII apostrophe, used by Python `%s`-style messages that
quote a token. -/
def sq (s : String) : String :=
  String.singleton (Char.ofNat 39) ++ s ++ String.singleton (Char.ofNat 39)

/-- `err(msg)` prints `Error: <msg>.` and exits; this builds the printed
text. -/
def errMsg (m : String) : String := "Error: " ++ m ++ "."

/-- Numeric value of a digit string (most significant first). -/
def digitsVal (ds : List Char) : Nat :=
  ds.foldl (fun acc c => acc * 10 + (c.toNat - 48)) 0

/-- A nonempty all-digit string, as required by `int(...)` after the
optional sign. -/
def parseDigits (ds : List Char) : Option Nat :=
  if ds ≠ [] ∧ ds.all Char.isDigit then some (digitsVal ds) else none

/-- Python `int(arg)` on a sign + digits literal. -/
def pyParseInt (s : String) : Option Int :=
  match s.data with
  | '-' :: ds => (parseDigits ds).map fun n => -(n : Int)
  | '+' :: ds => (parseDigits ds).map fun n => (n : Int)
  | ds => (parseDigits ds).map fun n => (n : Int)

/-- Exact decimal value `num / 10 ^ exp` of a Python float literal. -/
structure PyFloat where
  num : Int
  exp : Nat
deriving DecidableEq, Repr

/-- Drop trailing `'0'` digits of a fractional part, canonicalising the
decimal representation (`2.2` and `2.20` denote the same float). -/
def stripTrailingZeros (ds : List Char) : List Char :=
  (ds.reverse.dropWhile (fun c => c = '0')).reverse

/-- Unsigned part of a float literal: `digits`, `digits.digits`,
`digits.` or `.digits`. -/
def floatCore (cs : List Char) : Option PyFloat :=
  let ip := cs.takeWhile Char.isDigit
  let rest := cs.dropWhile Char.isDigit
  match rest with
  | [] => if ip.isEmpty then none else some ⟨(digitsVal ip : Nat), 0⟩
  | '.' :: frac =>
    if frac.all Char.isDigit ∧ ¬(ip.isEmpty ∧ frac.isEmpty) then
      let f := stripTrailingZeros frac
      some ⟨(digitsVal (ip ++ f) : Nat), f.length⟩
    else none
  | _ => none

/-- Python `float(arg)` on a sign + decimal literal. -/
def pyParseFloat (s : String) : Option PyFloat :=
  match s.data with
  | '-' :: cs => (floatCore cs).map fun x => ⟨-x.num, x.exp⟩
  | '+' :: cs => floatCore cs
  | cs => floatCore cs

/-- Python `name.split()`: split on whitespace runs, no empty pieces. -/
def splitWsAux : List Char → List Char → List String
  | [], acc => if acc.isEmpty then [] else [String.mk acc.reverse]
  | c :: cs, acc =>
    if c.isWhitespace then
      if acc.isEmpty then splitWsAux cs []
      else String.mk acc.reverse :: splitWsAux cs []
    else splitWsAux cs (c :: acc)

def pySplit (s : String) : List String := splitWsAux s.data []

/-- Python `s.strip()`. -/
def pyStrip (s : String) : String :=
  String.mk (((s.data.dropWhile Char.isWhitespace).reverse.dropWhile
    Char.isWhitespace).reverse)

/-- `helptext.strip() if helptext else None` from `ArgParser.__init__`:
`None` and the empty string give `None`, anything else is stripped. -/
def pyStripOpt : Option String → Option String
  | none => none
  | some t => if t = "" then none else some (pyStrip t)

/-- Python `pre in s` specialised to `"=" in arg`. -/
def containsChar (s : String) (c : Char) : Bool := s.data.contains c

/-- Python `s.startswith(pat)`. -/
def pyStartsWith (s pat : String) : Bool := pat.data.isPrefixOf s.data

/-- `arg.split("=", maxsplit=1)`: text before the first `=`. -/
def eqName (arg : String) : String :=
  String.mk (arg.data.takeWhile (fun c => c ≠ '='))

/-- `arg.split("=", maxsplit=1)`: text after the first `=`. -/
def eqValue (arg : String) : String :=
  String.mk ((arg.data.dropWhile (fun c => c ≠ '=')).drop 1)

/-- `_is_arg(arg)`: true if `arg` looks like an argument rather than an
option — it does not start with `-`, or is exactly `-`, or starts with
`-` followed by a digit (clio.py lines 579-586). -/
def _is_arg (arg : String) : Bool :=
  match arg.data with
  | '-' :: [] => true
  | '-' :: c :: _ => c.isDigit
  | _ => true

/-- The `arg == '-' or arg[1].isdigit()` test of `ArgParser.parse` for a
token already known to start with `-`. -/
def secondCharIsDigit (arg : String) : Bool :=
  match arg.data with
  | _ :: c :: _ => c.isDigit
  | _ => false

/-- The option type tag: `'bool'`, `'string'`, `'int'` or `'float'`. -/
inductive OptType where
  | bool
  | string
  | int
  | float
deriving DecidableEq, Repr

/-- A parsed option value of one of the four dynamic types. -/
inductive Value where
  | bool (b : Bool)
  | str (s : String)
  | int (i : Int)
  | float (f : PyFloat)
deriving DecidableEq, Repr

/-- The Python `Option` class (`clio.Option`): type tag, cardinality
flags, occurrence flag, greedy flag and the value list. -/
structure Opt where
  type : OptType
  mono : Bool
  poly : Bool
  found : Bool
  greedy : Bool
  values : List Value
deriving DecidableEq, Repr

/-- `Option.__init__(type)`. -/
def Opt.mkNew (t : OptType) : Opt := ⟨t, false, false, false, false, []⟩

/-- `Option.append(value)`. -/
def Opt.appendVal (o : Opt) (v : Value) : Opt :=
  { o with values := o.values ++ [v] }

/-- The non-recursive fields of `ArgParser`.  `options` maps each alias
to an index into `optTable`, whose entries play the role of the shared
Python `Option` objects; `callbacks` maps command aliases to opaque
callback identifiers. -/
structure ParserCore where
  helptext : Option String
  version : Option String
  options : List (String × Nat)
  optTable : List Opt
  callbacks : List (String × Nat)
  arguments : List String
  cmd_name : Option String
deriving DecidableEq, Repr

/-- The `ArgParser` class.  `commands` maps command names to their
nested parsers and `cmd_par` (the Python attribute `cmd_parser`)
stores the matched command's parser; these are the recursive fields. -/
inductive ArgParser : Type where
  | mk (core : ParserCore) (commands : List (String × ArgParser))
      (cmd_par : Option ArgParser)

def ArgParser.core : ArgParser → ParserCore
  | .mk c _ _ => c

def ArgParser.commands : ArgParser → List (String × ArgParser)
  | .mk _ cs _ => cs

def ArgParser.cmd_par : ArgParser → Option ArgParser
  | .mk _ _ cp => cp

def ArgParser.helptext (p : ArgParser) : Option String := p.core.helptext

def ArgParser.version (p : ArgParser) : Option String := p.core.version

def ArgParser.withCore (p : ArgParser) (c : ParserCore) : ArgParser :=
  .mk c p.commands p.cmd_par

/-- `ArgParser.__init__(helptext, version)`. -/
def ArgParser.init (helptext version : Option String) : ArgParser :=
  .mk ⟨pyStripOpt helptext, pyStripOpt version, [], [], [], [], none⟩ [] none

/-- Look an alias up in the `options` dictionary, returning the table
index together with the record (`self.options.get(name)`). -/
def lookupOpt (p : ArgParser) (name : String) : Option (Nat × Opt) :=
  match p.core.options.lookup name with
  | some i => (p.core.optTable.get? i).map fun o => (i, o)
  | none => none

/-- Overwrite the option record at table index `i` with `found := true`
(the `option.found = True` assignments). -/
def markFound (p : ArgParser) (i : Nat) : ArgParser :=
  match p.core.optTable.get? i with
  | some o =>
    p.withCore { p.core with
      optTable := p.core.optTable.set i { o with found := true } }
  | none => p

/-- `ArgParser._add_mono_opt(type, name, default)`: one fresh record,
seeded with the default, bound under every whitespace-separated alias.
New bindings are prepended so that a later registration of the same
alias shadows an earlier one, like dictionary assignment. -/
def _add_mono_opt (p : ArgParser) (t : OptType) (name : String)
    (default : Value) : ArgParser :=
  let idx := p.core.optTable.length
  p.withCore { p.core with
    optTable := p.core.optTable ++ [⟨t, true, false, false, false, [default]⟩],
    options := ((pySplit name).map fun a => (a, idx)) ++ p.core.options }

def add_flag (p : ArgParser) (name : String) : ArgParser :=
  _add_mono_opt p .bool name (.bool false)

def add_str (p : ArgParser) (name : String) (default : String) : ArgParser :=
  _add_mono_opt p .string name (.str default)

def add_int (p : ArgParser) (name : String) (default : Int) : ArgParser :=
  _add_mono_opt p .int name (.int default)

def add_float (p : ArgParser) (name : String) (default : PyFloat) : ArgParser :=
  _add_mono_opt p .float name (.float default)

/-- `ArgParser._add_poly_opt(type, name, greedy)`. -/
def _add_poly_opt (p : ArgParser) (t : OptType) (name : String)
    (greedy : Bool) : ArgParser :=
  let idx := p.core.optTable.length
  p.withCore { p.core with
    optTable := p.core.optTable ++ [⟨t, false, true, false, greedy, []⟩],
    options := ((pySplit name).map fun a => (a, idx)) ++ p.core.options }

def add_flag_list (p : ArgParser) (name : String) : ArgParser :=
  _add_poly_opt p .bool name false

def add_str_list (p : ArgParser) (name : String) (greedy : Bool) : ArgParser :=
  _add_poly_opt p .string name greedy

def add_int_list (p : ArgParser) (name : String) (greedy : Bool) : ArgParser :=
  _add_poly_opt p .int name greedy

def add_float_list (p : ArgParser) (name : String) (greedy : Bool) : ArgParser :=
  _add_poly_opt p .float name greedy

/-- `ArgParser.add_cmd(name, callback, helptext)`: a fresh parser built
with the help text only, bound (with the callback) under every alias.
It returns the updated outer parser together with the nested parser
(Python returns the nested parser and mutates `self`).  Each alias
binding holds the nested parser; in Python all aliases share one
object, which is observable here only through the binding that `parse`
later updates. -/
def add_cmd (p : ArgParser) (name : String) (callback : Nat)
    (helptext : String) : ArgParser × ArgParser :=
  let parser := ArgParser.init (some helptext) none
  (⟨{ p.core with
        callbacks := ((pySplit name).map fun a => (a, callback)) ++
          p.core.callbacks },
    ((pySplit name).map fun a => (a, parser)) ++ p.commands,
    p.cmd_par⟩,
   parser)

/-- Model of mutating the nested parser through the reference returned
by `add_cmd` (registration of the subcommand's own options happens via
that reference before parsing). -/
def updateCmd (p : ArgParser) (name : String)
    (f : ArgParser → ArgParser) : ArgParser :=
  .mk p.core
    (p.commands.map fun kq => if kq.1 = name then (kq.1, f kq.2) else kq)
    p.cmd_par

/-- Append one positional argument (`self.arguments.append(arg)`). -/
def appendArg (p : ArgParser) (arg : String) : ArgParser :=
  p.withCore { p.core with arguments := p.core.arguments ++ [arg] }

/-- The command-match bookkeeping of `ArgParser.parse`: record
`cmd_name` / `cmd_par` and store the (mutated) nested parser back in
its binding, as Python's in-place mutation of the shared object does. -/
def recordCmd (p : ArgParser) (arg : String) (np : ArgParser) : ArgParser :=
  .mk { p.core with cmd_name := some arg }
    (p.commands.map fun kq => if kq.1 = arg then (kq.1, np) else kq)
    (some np)

/-- `ArgParser._set_opt(name, value)`: replace `values[0]` for a
mono-valued option, append for a poly-valued one.  `none` models the
`ParserError` raised for an unregistered name.  (Mono value lists are
always nonempty: they are seeded with the default at registration.) -/
def _set_opt (p : ArgParser) (name : String) (v : Value) : Option ArgParser :=
  match lookupOpt p name with
  | some (i, o) =>
    let o' := if o.mono then { o with values := o.values.set 0 v }
      else o.appendVal v
    some (p.withCore { p.core with optTable := p.core.optTable.set i o' })
  | none => none

/-- `ArgParser._get_mono_opt(name)`: `option.values[0]`; `none` models
the `ParserError` for an unregistered name. -/
def _get_mono_opt (p : ArgParser) (name : String) : Option Value :=
  match lookupOpt p name with
  | some (_, o) => o.values.get? 0
  | none => none

/-- `ArgParser._get_poly_opt(name)`. -/
def _get_poly_opt (p : ArgParser) (name : String) : Option (List Value) :=
  (lookupOpt p name).map fun x => x.2.values

/-- `ArgParser.len_list(name)`. -/
def len_list (p : ArgParser) (name : String) : Option Nat :=
  (lookupOpt p name).map fun x => x.2.values.length

/-- Result of `ArgParser.__getitem__` on an integer key:
`arg` is a returned positional, `parserError` the raised
`ParserError`, `indexError` an uncaught Python `IndexError` escaping
from `self.arguments[key]`. -/
inductive ItemResult where
  | arg (s : String)
  | parserError (msg : String)
  | indexError
deriving DecidableEq, Repr

/-- Python list subscription `xs[key]` with its negative-index
semantics. -/
def pyListGet (xs : List String) (key : Int) : ItemResult :=
  if 0 ≤ key then
    match xs.get? key.toNat with
    | some x => .arg x
    | none => .indexError
  else
    let j := (xs.length : Int) + key
    if 0 ≤ j then
      match xs.get? j.toNat with
      | some x => .arg x
      | none => .indexError
    else .indexError

/-- `ArgParser.__getitem__(key)` for `isinstance(key, int)` (clio.py
lines 118-122): the bound check is `key < len(self.arguments)` only. -/
def getitemInt (p : ArgParser) (key : Int) : ItemResult :=
  if key < (p.core.arguments.length : Int) then
    pyListGet p.core.arguments key
  else
    .parserError ("argument index [" ++ toString key ++ "] is out of bounds")

/-- Result of `ArgParser._try_parse_arg(argtype, arg)`: a value, a fatal
`err(...)` exit, or the `ParserError` raised for an unknown type tag
(unreachable from `parse`, which never passes `'bool'` here). -/
inductive TryResult where
  | val (v : Value)
  | exitErr (msg : String)
  | raised (msg : String)
deriving Repr

/-- `ArgParser._try_parse_arg` (clio.py lines 291-305). -/
def _try_parse_arg (argtype : OptType) (arg : String) : TryResult :=
  match argtype with
  | .string => .val (.str arg)
  | .int =>
    match pyParseInt arg with
    | some i => .val (.int i)
    | none => .exitErr (errMsg ("cannot parse " ++ sq arg ++ " as an integer"))
  | .float =>
    match pyParseFloat arg with
    | some f => .val (.float f)
    | none => .exitErr (errMsg ("cannot parse " ++ sq arg ++ " as a float"))
  | .bool => .raised "ParserError: invalid argument type"

/-- Result of `_parse_name_equals_value_option`, which never touches the
stream. -/
inductive EResult where
  | ok (p : ArgParser)
  | exitErr (msg : String)
  | raised (msg : String)

/-- Message of the `ParserError` raised by `_set_opt` for an
unregistered name (unreachable from `parse`: the name was just looked
up). -/
def setRaisedMsg (name : String) : String :=
  "ParserError: " ++ sq name ++ " is not a registered option"

/-- `ArgParser._parse_name_equals_value_option(prefix, arg)` (clio.py
lines 308-325).  Note the order of the checks: unknown option, then the
mono single-occurrence check, then the boolean-flag format check, then
the empty-value check. -/
def _parse_name_equals_value_option (p : ArgParser) (pfx arg : String) :
    EResult :=
  let name := eqName arg
  let value := eqValue arg
  match lookupOpt p name with
  | none => .exitErr (errMsg (pfx ++ name ++ " is not a recognised option"))
  | some (i, o) =>
    if o.mono && o.found then
      .exitErr (errMsg ("option " ++ pfx ++ name ++ " can be set only once"))
    else
      let p₁ := markFound p i
      if o.type = .bool then
        .exitErr (errMsg ("invalid format for boolean flag " ++ pfx ++ name))
      else if value = "" then
        .exitErr (errMsg ("missing argument for the " ++ pfx ++ name ++
          " option"))
      else
        match _try_parse_arg o.type value with
        | .val v =>
          match _set_opt p₁ name v with
          | some p₂ => .ok p₂
          | none => .raised (setRaisedMsg name)
        | .exitErr m => .exitErr m
        | .raised m => .raised m

/-- Result of a long/short-form handler: the updated parser together
with the stream tokens it did not consume, or a terminal outcome. -/
inductive StepResult where
  | ok (p : ArgParser) (rest : List String)
  | exitErr (msg : String)
  | exitOk (msg : String)
  | raised (msg : String)

/-- The greedy-list loop of the option handlers: `while
stream.has_next() and _is_arg(stream.peek())`, coercing and appending
each consumed token. -/
def consumeGreedyValues (t : OptType) (p : ArgParser) (name : String) :
    List String → StepResult
  | [] => .ok p []
  | a :: rest =>
    if _is_arg a then
      match _try_parse_arg t a with
      | .val v =>
        match _set_opt p name v with
        | some p₁ => consumeGreedyValues t p₁ name rest
        | none => .raised (setRaisedMsg name)
      | .exitErr m => .exitErr m
      | .raised m => .raised m
    else .ok p (a :: rest)

/-- `ArgParser._parse_longform_option(arg, stream)` (clio.py lines
328-378): `name=value` form, then registered options (with the
mono-duplicate check, boolean flags, required value and greedy
consumption), then the automatic `--help` / `--version` flags, then the
unrecognised-option error. -/
def _parse_longform_option (p : ArgParser) (arg : String)
    (rest : List String) : StepResult :=
  if containsChar arg '=' then
    match _parse_name_equals_value_option p "--" arg with
    | .ok p₁ => .ok p₁ rest
    | .exitErr m => .exitErr m
    | .raised m => .raised m
  else
    match lookupOpt p arg with
    | some (i, o) =>
      if o.mono && o.found then
        .exitErr (errMsg ("option --" ++ arg ++ " can be set only once"))
      else
        let p₁ := markFound p i
        if o.type = .bool then
          match _set_opt p₁ arg (.bool true) with
          | some p₂ => .ok p₂ rest
          | none => .raised (setRaisedMsg arg)
        else
          match rest with
          | a :: rest₁ =>
            if _is_arg a then
              match _try_parse_arg o.type a with
              | .val v =>
                match _set_opt p₁ arg v with
                | some p₂ =>
                  if o.greedy then consumeGreedyValues o.type p₂ arg rest₁
                  else .ok p₂ rest₁
                | none => .raised (setRaisedMsg arg)
              | .exitErr m => .exitErr m
              | .raised m => .raised m
            else
              .exitErr (errMsg ("missing argument for the --" ++ arg ++
                " option"))
          | [] =>
            .exitErr (errMsg ("missing argument for the --" ++ arg ++
              " option"))
    | none =>
      if arg = "help" then
        match p.helptext with
        | some ht => .exitOk (ht ++ "\n")
        | none => .exitErr (errMsg ("--" ++ arg ++ " is not a recognised option"))
      else if arg = "version" then
        match p.version with
        | some vs => .exitOk (vs ++ "\n")
        | none => .exitErr (errMsg ("--" ++ arg ++ " is not a recognised option"))
      else
        .exitErr (errMsg ("--" ++ arg ++ " is not a recognised option"))

/-- The `for char in arg` loop of `_parse_shortform_option`: each
character is handled like a long-form registered option (lookup,
mono-duplicate check, boolean set, value consumption with optional
greedy continuation), with `-` in the error messages. -/
def shortformChars (p : ArgParser) : List Char → List String → StepResult
  | [], rest => .ok p rest
  | c :: cs, rest =>
    let name := String.singleton c
    match lookupOpt p name with
    | none => .exitErr (errMsg ("-" ++ name ++ " is not a recognised option"))
    | some (i, o) =>
      if o.mono && o.found then
        .exitErr (errMsg ("option -" ++ name ++ " can be set only once"))
      else
        let p₁ := markFound p i
        if o.type = .bool then
          match _set_opt p₁ name (.bool true) with
          | some p₂ => shortformChars p₂ cs rest
          | none => .raised (setRaisedMsg name)
        else
          match rest with
          | a :: rest₁ =>
            if _is_arg a then
              match _try_parse_arg o.type a with
              | .val v =>
                match _set_opt p₁ name v with
                | some p₂ =>
                  if o.greedy then
                    match consumeGreedyValues o.type p₂ name rest₁ with
                    | .ok p₃ rest₂ => shortformChars p₃ cs rest₂
                    | .exitErr m => .exitErr m
                    | .exitOk m => .exitOk m
                    | .raised m => .raised m
                  else shortformChars p₂ cs rest₁
                | none => .raised (setRaisedMsg name)
              | .exitErr m => .exitErr m
              | .raised m => .raised m
            else
              .exitErr (errMsg ("missing argument for the -" ++ name ++
                " option"))
          | [] =>
            .exitErr (errMsg ("missing argument for the -" ++ name ++
              " option"))

/-- `ArgParser._parse_shortform_option(arg, stream)` (clio.py lines
381-423). -/
def _parse_shortform_option (p : ArgParser) (arg : String)
    (rest : List String) : StepResult :=
  if containsChar arg '=' then
    match _parse_name_equals_value_option p "-" arg with
    | .ok p₁ => .ok p₁ rest
    | .exitErr m => .exitErr m
    | .raised m => .raised m
  else
    shortformChars p arg.data rest

/-- Outcome of `ArgParser.parse`: normal return with the mutated parser
and the callback invocations performed, a `sys.exit` (with or without an
error message), an uncaught exception, or fuel exhaustion (shown
unreachable below). -/
inductive Outcome where
  | ok (p : ArgParser) (events : List (Nat × ArgParser))
  | exitErr (msg : String)
  | exitOk (msg : String)
  | raised (msg : String)
  | fuelOut

/-- The classification loop of `ArgParser.parse` (clio.py lines
225-287), one fuel unit per iteration.  The command branch feeds
`stream.remainder()` — every remaining token — to the nested parser,
invokes the callback with it, records the match, and (the stream now
being exhausted) the loop ends. -/
def parseGo : Nat → ArgParser → Bool → List String → Outcome
  | _, p, _, [] => .ok p []
  | 0, _, _, _ :: _ => .fuelOut
  | fuel + 1, p, parsing, arg :: rest =>
    if parsing = false then
      parseGo fuel (appendArg p arg) parsing rest
    else if arg = "--" then
      parseGo fuel p false rest
    else if pyStartsWith arg "--" then
      match _parse_longform_option p (String.mk (arg.data.drop 2)) rest with
      | .ok p₁ rest₁ => parseGo fuel p₁ parsing rest₁
      | .exitErr m => .exitErr m
      | .exitOk m => .exitOk m
      | .raised m => .raised m
    else if pyStartsWith arg "-" then
      if arg = "-" || secondCharIsDigit arg then
        parseGo fuel (appendArg p arg) parsing rest
      else
        match _parse_shortform_option p (String.mk (arg.data.drop 1)) rest with
        | .ok p₁ rest₁ => parseGo fuel p₁ parsing rest₁
        | .exitErr m => .exitErr m
        | .exitOk m => .exitOk m
        | .raised m => .raised m
    else
      match p.commands.lookup arg with
      | some cmdp =>
        match p.core.callbacks.lookup arg with
        | some cb =>
          match parseGo fuel cmdp true rest with
          | .ok np nevs => .ok (recordCmd p arg np) (nevs ++ [(cb, np)])
          | .exitErr m => .exitErr m
          | .exitOk m => .exitOk m
          | .raised m => .raised m
          | .fuelOut => .fuelOut
        | none => .raised ("KeyError: " ++ sq arg)
      | none =>
        if arg = "help" then
          match rest with
          | name :: _ =>
            match p.commands.lookup name with
            | some c =>
              match c.helptext with
              | some ht => .exitOk (ht ++ "\n")
              | none => .raised "TypeError: unsupported operand"
            | none =>
              .exitErr (errMsg (sq name ++ " is not a recognised command"))
          | [] => .exitErr (errMsg "the help command requires an argument")
        else
          parseGo fuel (appendArg p arg) parsing rest

/-- `ArgParser.parse(args)`: run the loop with option parsing on.  Fuel
`args.length` suffices because every iteration consumes at least one
token. -/
def parse (p : ArgParser) (args : List String) : Outcome :=
  parseGo args.length p true args

/-! Concrete parser states used by the witness theorems. -/

/-- A bare parser (`ArgParser()`). -/
def P0 : ArgParser := ArgParser.init none none

/-- Parser of the condensed-short-form scenario: bool `b`, string `s`,
int `i`, float `f` (defaults `False`, `"default"`, `101`, `1.1`). -/
def P2 : ArgParser :=
  add_float (add_int (add_str (add_flag P0 "bool b") "string s" "default")
    "int i" 101) "float f" ⟨11, 1⟩

/-- Result parser of parsing `-bsif value 202 2.2` with `P2`. -/
def P2res : ArgParser :=
  match parse P2 ["-bsif", "value", "202", "2.2"] with
  | .ok q _ => q
  | _ => P0

/-- Parser with a greedy string list option `tag`. -/
def P3 : ArgParser := add_str_list P0 "tag" true

/-- `P3` after parsing `--tag a b c`. -/
def P3a : ArgParser :=
  match parse P3 ["--tag", "a", "b", "c"] with
  | .ok q _ => q
  | _ => P0

/-- `P3` after parsing `--tag a b c --tag d`. -/
def P3b : ArgParser :=
  match parse P3 ["--tag", "a", "b", "c", "--tag", "d"] with
  | .ok q _ => q
  | _ => P0

/-- Parser with a boolean flag under aliases `name` and `n`. -/
def P4 : ArgParser := add_flag P0 "name n"

/-- `P4` after one occurrence of `--name` (the flag is now `found`). -/
def P4f : ArgParser :=
  match _parse_longform_option P4 "name" [] with
  | .ok q _ => q
  | _ => P0

/-- Parser with a boolean flag `flag`. -/
def P6 : ArgParser := add_flag P0 "flag"

/-- `P6` after one occurrence of `--flag` (the flag is now `found`). -/
def P6f : ArgParser :=
  match _parse_longform_option P6 "flag" [] with
  | .ok q _ => q
  | _ => P0

/-- Parser with one positional argument `foo`. -/
def P8 : ArgParser := appendArg P0 "foo"

/-- Outer/nested parser pair of `add_cmd("cmd", callback 7,
"helptext")`. -/
def PC1 : ArgParser × ArgParser := add_cmd P0 "cmd" 7 "helptext"

/-- The nested parser of `PC1` after parsing the delegated remainder
`["x", "y"]`. -/
def NP1res : ArgParser :=
  match parseGo 2 PC1.2 true ["x", "y"] with
  | .ok q _ => q
  | _ => P0

/-! Helper lemmas. -/

theorem lookup_map_const {a : String} {l : List String} {c : Nat}
    (h : a ∈ l) : List.lookup a (l.map fun x => (x, c)) = some c := by
  induction l with
  | nil => cases h
  | cons b bs ih =>
    simp only [List.map_cons, List.lookup]
    by_cases hab : a = b
    · simp [hab]
    · have hm : a ∈ bs := by
        cases h with
        | head => exact absurd rfl hab
        | tail _ hm => exact hm
      have hf : (a == b) = false := beq_eq_false_iff_ne.mpr hab
      simp only [hf]
      exact ih hm

theorem lookup_append_left {a : String} {l₁ l₂ : List (String × Nat)}
    {c : Nat} (h : List.lookup a l₁ = some c) :
    List.lookup a (l₁ ++ l₂) = some c := by
  induction l₁ with
  | nil => simp [List.lookup] at h
  | cons kv rest ih =>
    obtain ⟨k, v⟩ := kv
    simp only [List.cons_append, List.lookup] at h ⊢
    by_cases hak : a = k
    · simpa [hak] using h
    · have hf : (a == k) = false := beq_eq_false_iff_ne.mpr hak
      simp only [hf] at h ⊢
      exact ih h

/-- Claim C2: parsing the condensed short form `-bsif value 202 2.2`
over (bool `b`, string `s`, int `i`, float `f`) processes the
characters left to right, each non-bool character immediately claiming
the following tokens: `b = true`, `s = "value"`, `i = 202`, `f = 2.2`
(modelled as the exact decimal `22 / 10`); nothing is left over as a
positional argument. -/
theorem claim2_condensed_shortform :
    parse P2 ["-bsif", "value", "202", "2.2"] = Outcome.ok P2res [] ∧
    P2res.core.arguments = [] ∧
    _get_mono_opt P2res "bool" = some (.bool true) ∧
    _get_mono_opt P2res "b" = some (.bool true) ∧
    _get_mono_opt P2res "string" = some (.str "value") ∧
    _get_mono_opt P2res "int" = some (.int 202) ∧
    _get_mono_opt P2res "float" = some (.float ⟨22, 1⟩) :=
  ⟨rfl, rfl, rfl, rfl, rfl, rfl, rfl⟩

/-- Claim C3: one occurrence of the greedy string-list option `--tag`
followed by `a b c` consumes all three value-shaped tokens, giving the
list `["a", "b", "c"]`; a later `--tag d` in the same token list appends,
giving a list of length 4. -/
theorem claim3_greedy_list :
    parse P3 ["--tag", "a", "b", "c"] = Outcome.ok P3a [] ∧
    _get_poly_opt P3a "tag" = some [.str "a", .str "b", .str "c"] ∧
    len_list P3a "tag" = some 3 ∧
    parse P3 ["--tag", "a", "b", "c", "--tag", "d"] = Outcome.ok P3b [] ∧
    len_list P3b "tag" = some 4 ∧
    _get_poly_opt P3b "tag" =
      some [.str "a", .str "b", .str "c", .str "d"] :=
  ⟨rfl, rfl, rfl, rfl, rfl, rfl⟩

/-- Claim C5, counterexample: the claim says that with no registered
commands a bare `help` token is appended to the positional arguments,
but `ArgParser.parse` has no such guard — on a parser with no commands,
`parse(["help"])` runs the help command and exits with the
missing-argument error instead of returning normally with
`arguments == ["help"]`. -/
theorem claim5_counterexample :
    parse P0 ["help"] =
      Outcome.exitErr "Error: the help command requires an argument." ∧
    parse P0 ["help"] ≠ Outcome.ok (appendArg P0 "help") [] := by
  have h1 : parse P0 ["help"] =
      Outcome.exitErr "Error: the help command requires an argument." := rfl
  exact ⟨h1, fun h => Outcome.noConfusion (h1.symm.trans h)⟩

/-- Claim C5 as amended: a bare token `help` that is not itself a
registered command name is always treated as the automatic help
command, whether or not any commands are registered: with a following
token it prints the named command's help text and exits (unregistered
names give the unknown-command error), and without one it exits with
the missing-argument error.  It is never appended to the positional
arguments. -/
theorem claim5_amended (p : ArgParser) (rest : List String) (fuel : Nat)
    (h : p.commands.lookup "help" = none) :
    parseGo (fuel + 1) p true ("help" :: rest) =
      match rest with
      | [] => Outcome.exitErr (errMsg "the help command requires an argument")
      | name :: _ =>
        match p.commands.lookup name with
        | some c =>
          match c.helptext with
          | some ht => Outcome.exitOk (ht ++ "\n")
          | none => Outcome.raised "TypeError: unsupported operand"
        | none =>
          Outcome.exitErr (errMsg (sq name ++ " is not a recognised command")) := by
  have hsw2 : pyStartsWith "help" "--" = false := rfl
  have hsw1 : pyStartsWith "help" "-" = false := rfl
  simp only [parseGo, h, hsw2, hsw1]
  norm_num
  cases rest with
  | nil => rfl
  | cons name tail => rfl

/-- Claim C5 witness: on a parser whose only command is `other`,
`help other` prints that command's help text, and a bare `help` exits
with the missing-argument error. -/
theorem claim5_witness :
    parseGo 2 (add_cmd P0 "other" 3 "otherhelp").1 true ["help", "other"] =
      Outcome.exitOk ("otherhelp" ++ "\n") ∧
    parseGo 1 P0 true ["help"] =
      Outcome.exitErr (errMsg "the help command requires an argument") :=
  ⟨claim5_amended (add_cmd P0 "other" 3 "otherhelp").1 ["other"] 1 rfl,
   claim5_amended P0 [] 0 rfl⟩

/-- Claim C6, counterexample: the claim says a registered Bool option
already marked found fails `--name=value` with the boolean-format
(TypeMismatch) error, but `_parse_name_equals_value_option` performs the
mono single-occurrence check first: after `--flag`, the token
`--flag=x` exits with the `can be set only once` (DuplicateOption)
error, not the boolean-format one. -/
theorem claim6_counterexample :
    parse P6 ["--flag", "--flag=x"] =
      Outcome.exitErr "Error: option --flag can be set only once." ∧
    Outcome.exitErr "Error: option --flag can be set only once." ≠
      Outcome.exitErr "Error: invalid format for boolean flag --flag." :=
  ⟨rfl, fun h => absurd (Outcome.exitErr.inj h) (by decide)⟩

/-- Claim C6 as amended: for a `name=value` token the checks run in the
order: `UnknownOption` if the name is unregistered; then the
Mono-single-occurrence `DuplicateOption` check; then `TypeMismatch` if
the option's kind is Bool; then `EmptyValue` if the right-hand side is
empty.  In particular a registered Bool option that is already found
fails with `DuplicateOption`, not `TypeMismatch`. -/
theorem claim6_amended (p : ArgParser) (pfx arg : String) :
    (lookupOpt p (eqName arg) = none →
      _parse_name_equals_value_option p pfx arg =
        .exitErr (errMsg (pfx ++ eqName arg ++ " is not a recognised option"))) ∧
    (∀ i o, lookupOpt p (eqName arg) = some (i, o) → o.mono = true →
      o.found = true →
      _parse_name_equals_value_option p pfx arg =
        .exitErr (errMsg ("option " ++ pfx ++ eqName arg ++
          " can be set only once"))) ∧
    (∀ i o, lookupOpt p (eqName arg) = some (i, o) →
      (o.mono && o.found) = false → o.type = .bool →
      _parse_name_equals_value_option p pfx arg =
        .exitErr (errMsg ("invalid format for boolean flag " ++ pfx ++
          eqName arg))) ∧
    (∀ i o, lookupOpt p (eqName arg) = some (i, o) →
      (o.mono && o.found) = false → o.type ≠ .bool → eqValue arg = "" →
      _parse_name_equals_value_option p pfx arg =
        .exitErr (errMsg ("missing argument for the " ++ pfx ++
          eqName arg ++ " option"))) := by
  refine ⟨?_, ?_, ?_, ?_⟩
  · intro h
    simp only [_parse_name_equals_value_option, h]
  · intro i o h hm hf
    simp only [_parse_name_equals_value_option, h, hm, hf]
    rfl
  · intro i o h hmf ht
    simp only [_parse_name_equals_value_option, h, hmf, ht]
    rfl
  · intro i o h hmf ht hv
    simp only [_parse_name_equals_value_option, h, hmf, hv]
    simp [ht]

/-- Claim C6 witness: with the bool flag `flag` already found,
`--flag=x` exits with the duplicate-option error; with it not yet
found, `--flag=x` exits with the boolean-format error. -/
theorem claim6_witness :
    _parse_name_equals_value_option P6f "--" "flag=x" =
      .exitErr (errMsg ("option " ++ "--" ++ eqName "flag=x" ++
        " can be set only once")) ∧
    _parse_name_equals_value_option P6 "--" "flag=x" =
      .exitErr (errMsg ("invalid format for boolean flag " ++ "--" ++
        eqName "flag=x")) := by
  have h1 : lookupOpt P6f (eqName "flag=x") =
      some (0, ⟨.bool, true, false, true, false, [.bool true]⟩) := by decide
  have h2 : lookupOpt P6 (eqName "flag=x") =
      some (0, ⟨.bool, true, false, false, false, [.bool false]⟩) := by decide
  exact ⟨(claim6_amended P6f "--" "flag=x").2.1 _ _ h1 rfl rfl,
    (claim6_amended P6 "--" "flag=x").2.2.1 _ _ h2 rfl rfl⟩

/-- Claim C8, counterexample: the claim says every integer index outside
the bounds of the positional list fails with the parser's own
`ParserError`, never with an unhandled out-of-range failure; but the
bound check of `__getitem__` is only `key < len(self.arguments)`, so on
a parser with no positional arguments the key `-1` passes the check and
`self.arguments[-1]` raises an uncaught `IndexError`. -/
theorem claim8_counterexample :
    getitemInt P0 (-1) = ItemResult.indexError ∧
    ItemResult.indexError ≠
      ItemResult.parserError "argument index [-1] is out of bounds" :=
  ⟨rfl, by decide⟩

/-- Claim C8 as amended: for nonnegative keys integer indexed access is
bounds-checked exactly as claimed — the positional at that index, or
the parser's own out-of-bounds `ParserError`; a negative key follows
Python's negative-indexing semantics instead: keys in `[-len, -1]`
return the positional counted from the end, and keys below `-len`
escape with an uncaught `IndexError`. -/
theorem claim8_amended (p : ArgParser) (key : Int) :
    (0 ≤ key →
      getitemInt p key =
        match p.core.arguments.get? key.toNat with
        | some x => ItemResult.arg x
        | none =>
          ItemResult.parserError ("argument index [" ++ toString key ++
            "] is out of bounds")) ∧
    (key < 0 → -(p.core.arguments.length : Int) ≤ key →
      getitemInt p key =
        match p.core.arguments.get?
            ((p.core.arguments.length : Int) + key).toNat with
        | some x => ItemResult.arg x
        | none => ItemResult.indexError) ∧
    (key < -(p.core.arguments.length : Int) →
      getitemInt p key = ItemResult.indexError) := by
  refine ⟨?_, ?_, ?_⟩
  · intro h0
    unfold getitemInt pyListGet
    by_cases hlt : key < (p.core.arguments.length : Int)
    · have hb : key.toNat < p.core.arguments.length := by omega
      have hx : p.core.arguments.get? key.toNat =
          some (p.core.arguments.get ⟨key.toNat, hb⟩) := by
        rw [List.get?_eq_getElem?]
        simp [List.getElem?_eq_getElem, hb]
      simp only [hlt, if_true, h0, if_true, hx]
    · have hnone : p.core.arguments.get? key.toNat = none := by
        rw [List.get?_eq_none]
        omega
      simp only [hlt, if_false, hnone]
  · intro hneg hge
    have hlt : key < (p.core.arguments.length : Int) := by omega
    have hn0 : ¬ (0 ≤ key) := by omega
    have hj : 0 ≤ (p.core.arguments.length : Int) + key := by omega
    unfold getitemInt pyListGet
    simp only [hlt, if_true, hn0, if_false, hj]
  · intro hlt2
    have hlt : key < (p.core.arguments.length : Int) := by omega
    have hn0 : ¬ (0 ≤ key) := by omega
    have hj : ¬ (0 ≤ (p.core.arguments.length : Int) + key) := by omega
    unfold getitemInt pyListGet
    simp only [hlt, if_true, hn0, if_false, hj]

/-- Claim C8 witness: on a parser with the single positional `foo`,
index 0 returns it, index 5 gives the `ParserError`, and index `-2`
escapes with the uncaught `IndexError`. -/
theorem claim8_witness :
    (0 : Int) ≤ 0 ∧ getitemInt P8 0 = ItemResult.arg "foo" ∧
    getitemInt P8 5 = ItemResult.parserError
      "argument index [5] is out of bounds" ∧
    getitemInt P8 (-2) = ItemResult.indexError :=
  ⟨le_refl 0,
   (claim8_amended P8 0).1 (by decide),
   (claim8_amended P8 5).1 (by decide),
   (claim8_amended P8 (-2)).2.2 (by decide)⟩

/-- Claim C1: when the classification loop (option parsing on) reaches a
token equal to a registered command name, the entire remainder of the
stream is fed to that command's nested parser; when the nested parse
returns normally, the command's callback is invoked exactly once with
the nested parser (the single event appended after the nested parse's
own events), the outer parser records the matched command name and
parser, and the outer positional argument list is unchanged — no
further token reaches it, the stream being exhausted. -/
theorem claim1_subcommand_dispatch (fuel : Nat) (p np np' : ArgParser)
    (cmd : String) (cb : Nat) (rest : List String)
    (nevs : List (Nat × ArgParser))
    (h1 : cmd ≠ "--")
    (h2 : pyStartsWith cmd "--" = false)
    (h3 : pyStartsWith cmd "-" = false)
    (hc : p.commands.lookup cmd = some np)
    (hcb : p.core.callbacks.lookup cmd = some cb)
    (hn : parseGo fuel np true rest = .ok np' nevs) :
    parseGo (fuel + 1) p true (cmd :: rest) =
      Outcome.ok (recordCmd p cmd np') (nevs ++ [(cb, np')]) ∧
    (recordCmd p cmd np').core.arguments = p.core.arguments ∧
    (recordCmd p cmd np').core.cmd_name = some cmd ∧
    (recordCmd p cmd np').cmd_par = some np' := by
  refine ⟨?_, rfl, rfl, rfl⟩
  simp only [parseGo, h2, h3, hc, hcb, hn]
  norm_num [h1]

/-- Claim C1 witness: on a parser whose only command is `cmd` (callback
id 7), parsing `["cmd", "x", "y"]` delegates `["x", "y"]` wholesale to
the nested parser and invokes callback 7 exactly once with it. -/
theorem claim1_witness :
    parseGo 3 PC1.1 true ["cmd", "x", "y"] =
      Outcome.ok (recordCmd PC1.1 "cmd" NP1res) [(7, NP1res)] ∧
    (recordCmd PC1.1 "cmd" NP1res).core.arguments = PC1.1.core.arguments ∧
    (recordCmd PC1.1 "cmd" NP1res).core.cmd_name = some "cmd" ∧
    (recordCmd PC1.1 "cmd" NP1res).cmd_par = some NP1res := by
  have hc : PC1.1.commands.lookup "cmd" = some PC1.2 := by rfl
  have hcb : PC1.1.core.callbacks.lookup "cmd" = some 7 := by rfl
  have hn : parseGo 2 PC1.2 true ["x", "y"] = .ok NP1res [] := by rfl
  exact claim1_subcommand_dispatch 2 PC1.1 PC1.2 NP1res "cmd" 7 ["x", "y"] []
    (by decide) rfl rfl hc hcb hn

/-- Claim C4: a second bare occurrence of a Mono option that is already
marked found exits with the `can be set only once` (DuplicateOption)
error, identically for the long form (`--name`) and for a short alias
(`-n`); no value is stored by the second occurrence since the handler
exits before any assignment. -/
theorem claim4_mono_duplicate (p : ArgParser) (name : String) (c : Char)
    (i j : Nat) (o u : Opt) (rest₁ rest₂ : List String)
    (hne : containsChar name '=' = false)
    (h1 : lookupOpt p name = some (i, o))
    (h2 : o.mono = true) (h3 : o.found = true)
    (hc : c ≠ '=')
    (h4 : lookupOpt p (String.singleton c) = some (j, u))
    (h5 : u.mono = true) (h6 : u.found = true) :
    _parse_longform_option p name rest₁ =
      .exitErr (errMsg ("option --" ++ name ++ " can be set only once")) ∧
    _parse_shortform_option p (String.singleton c) rest₂ =
      .exitErr (errMsg ("option -" ++ String.singleton c ++
        " can be set only once")) := by
  constructor
  · simp only [_parse_longform_option, hne, h1, h2, h3]
    norm_num
  · have hcf : ('=' == c) = false := beq_eq_false_iff_ne.mpr (Ne.symm hc)
    have hcc : containsChar (String.singleton c) '=' = false := by
      simp only [containsChar, String.singleton]
      simp [hcf]
      exact Ne.symm hc
    simp only [_parse_shortform_option, hcc]
    norm_num
    simp only [shortformChars, h4, h5, h6]
    norm_num

/-- Claim C4 witness: with the flag (aliases `name`, `n`) already found
after a first `--name`, both `--name` and `-n` exit with the
duplicate-option error. -/
theorem claim4_witness :
    _parse_longform_option P4f "name" [] =
      .exitErr (errMsg ("option --" ++ "name" ++ " can be set only once")) ∧
    _parse_shortform_option P4f (String.singleton 'n') [] =
      .exitErr (errMsg ("option -" ++ String.singleton 'n' ++
        " can be set only once")) := by
  have h1 : lookupOpt P4f "name" =
      some (0, ⟨.bool, true, false, true, false, [.bool true]⟩) := by decide
  have h4 : lookupOpt P4f (String.singleton 'n') =
      some (0, ⟨.bool, true, false, true, false, [.bool true]⟩) := by decide
  exact claim4_mono_duplicate P4f "name" 'n' 0 0 _ _ [] []
    rfl h1 rfl rfl (by decide) h4 rfl rfl

/-- Claim C7: all whitespace-separated aliases of one declared mono
option are bound to the same option record — `_add_mono_opt` binds
every alias to one shared table slot — so setting a value through one
alias and reading it through another returns that value. -/
theorem claim7_alias_sharing (p : ArgParser) (t : OptType) (name : String)
    (default : Value) (a1 a2 : String)
    (h1 : a1 ∈ pySplit name) (h2 : a2 ∈ pySplit name) (v : Value) :
    (_add_mono_opt p t name default).core.options.lookup a1 =
      some p.core.optTable.length ∧
    (_add_mono_opt p t name default).core.options.lookup a2 =
      some p.core.optTable.length ∧
    (_set_opt (_add_mono_opt p t name default) a1 v).bind
      (fun q => _get_mono_opt q a2) = some v := by
  obtain ⟨pc, pcmds, pcp⟩ := p
  have hl1 : List.lookup a1
      (((pySplit name).map fun a => (a, pc.optTable.length)) ++ pc.options) =
      some pc.optTable.length := lookup_append_left (lookup_map_const h1)
  have hl2 : List.lookup a2
      (((pySplit name).map fun a => (a, pc.optTable.length)) ++ pc.options) =
      some pc.optTable.length := lookup_append_left (lookup_map_const h2)
  have hget : (pc.optTable ++
      [(⟨t, true, false, false, false, [default]⟩ : Opt)]).get?
        pc.optTable.length =
      some (⟨t, true, false, false, false, [default]⟩ : Opt) := by
    rw [List.get?_eq_getElem?]
    exact List.getElem?_concat_length _ _
  have hlen : pc.optTable.length <
      (pc.optTable ++
        [(⟨t, true, false, false, false, [default]⟩ : Opt)]).length := by
    simp
  have hget2 : ((pc.optTable ++
      [(⟨t, true, false, false, false, [default]⟩ : Opt)]).set
        pc.optTable.length (⟨t, true, false, false, false, [v]⟩ : Opt)).get?
        pc.optTable.length =
      some (⟨t, true, false, false, false, [v]⟩ : Opt) := by
    rw [List.get?_eq_getElem?]
    simp [List.getElem?_set, hlen]
  refine ⟨hl1, hl2, ?_⟩
  unfold _set_opt _get_mono_opt lookupOpt _add_mono_opt ArgParser.withCore
    ArgParser.core ArgParser.commands ArgParser.cmd_par
  simp only [hl1, hl2, hget, hget2, Option.map_some', Option.some_bind,
    if_true, List.set_cons_zero, List.get?_cons_zero]

/-- Claim C7 witness: after registering the flag under `bool b`, both
aliases resolve to the same table slot, and a value set through `bool`
is read back through `b`. -/
theorem claim7_witness :
    (_add_mono_opt P0 .bool "bool b" (.bool false)).core.options.lookup
      "bool" = some P0.core.optTable.length ∧
    (_add_mono_opt P0 .bool "bool b" (.bool false)).core.options.lookup
      "b" = some P0.core.optTable.length ∧
    (_set_opt (_add_mono_opt P0 .bool "bool b" (.bool false)) "bool"
      (.bool true)).bind (fun q => _get_mono_opt q "b") =
      some (.bool true) :=
  claim7_alias_sharing P0 .bool "bool b" (.bool false) "bool" "b"
    (by decide) (by decide) (.bool true)

/-- Claim C10: the nested parser built by `add_cmd` is constructed with
help text only, never with a version string; consequently, on any
parser whose version is unset and which has no registered option named
`version` — the nested parsers `add_cmd` builds — a `--version` token
is rejected as an unrecognised option, whatever the root parser's
version configuration is. -/
theorem claim10_subparser_no_version (p : ArgParser) (name ht : String)
    (cb : Nat) (q : ArgParser) (rest : List String)
    (hv : q.version = none)
    (ho : q.core.options.lookup "version" = none) :
    (add_cmd p name cb ht).2.version = none ∧
    _parse_longform_option q "version" rest =
      .exitErr (errMsg ("--" ++ "version" ++
        " is not a recognised option")) := by
  refine ⟨rfl, ?_⟩
  have hlu : lookupOpt q "version" = none := by
    unfold lookupOpt
    rw [ho]
  have hct : containsChar "version" '=' = false := rfl
  have hnh : ¬("version" = "help") := by decide
  simp only [_parse_longform_option, hct, hlu, hv]
  norm_num [hnh]

/-- Claim C10 witness: the nested parser of `add_cmd("cmd", 7,
"helptext")` has no version string, and feeding it `--version` is
rejected as an unrecognised option. -/
theorem claim10_witness :
    (add_cmd P0 "cmd" 7 "helptext").2.version = none ∧
    _parse_longform_option (add_cmd P0 "cmd" 7 "helptext").2 "version"
      ["x"] =
      .exitErr (errMsg ("--" ++ "version" ++
        " is not a recognised option")) :=
  claim10_subparser_no_version P0 "cmd" "helptext" 7
    (add_cmd P0 "cmd" 7 "helptext").2 ["x"] rfl rfl

/-- The greedy loop only consumes tokens from the stream: when it
returns normally, what is left is no longer than what it was given. -/
theorem consumeGreedyValues_ok_length (t : OptType) (nm : String) :
    ∀ (l : List String) (p p' : ArgParser) (l' : List String),
      consumeGreedyValues t p nm l = .ok p' l' → l'.length ≤ l.length := by
  intro l
  induction l with
  | nil =>
    intro p p' l' h
    simp only [consumeGreedyValues] at h
    injection h with h1 h2
    subst h2
    exact Nat.le_refl _
  | cons a rest ih =>
    intro p p' l' h
    simp only [consumeGreedyValues] at h
    by_cases ha : _is_arg a = true
    · rw [if_pos ha] at h
      cases htr : _try_parse_arg t a with
      | val v =>
        simp only [htr] at h
        cases hs : _set_opt p nm v with
        | some p₁ =>
          simp only [hs] at h
          exact Nat.le_succ_of_le (ih _ _ _ h)
        | none =>
          simp only [hs] at h
          exact StepResult.noConfusion h
      | exitErr m =>
        simp only [htr] at h
        exact StepResult.noConfusion h
      | raised m =>
        simp only [htr] at h
        exact StepResult.noConfusion h
    · rw [if_neg ha] at h
      injection h with h1 h2
      subst h2
      exact Nat.le_refl _

/-- The condensed short-form loop only consumes tokens from the
stream. -/
theorem shortformChars_ok_length :
    ∀ (cs : List Char) (p : ArgParser) (l : List String) (p' : ArgParser)
      (l' : List String),
      shortformChars p cs l = .ok p' l' → l'.length ≤ l.length := by
  intro cs
  induction cs with
  | nil =>
    intro p l p' l' h
    simp only [shortformChars] at h
    injection h with h1 h2
    subst h2
    exact Nat.le_refl _
  | cons c cs ih =>
    intro p l p' l' h
    simp only [shortformChars] at h
    cases hlu : lookupOpt p (String.singleton c) with
    | none =>
      simp only [hlu] at h
      exact StepResult.noConfusion h
    | some io =>
      obtain ⟨i, o⟩ := io
      simp only [hlu] at h
      by_cases hmf : (o.mono && o.found) = true
      · rw [if_pos hmf] at h
        exact StepResult.noConfusion h
      · rw [if_neg hmf] at h
        by_cases hb : o.type = OptType.bool
        · rw [if_pos hb] at h
          cases hs : _set_opt (markFound p i) (String.singleton c)
              (.bool true) with
          | some p₂ =>
            simp only [hs] at h
            exact ih _ _ _ _ h
          | none =>
            simp only [hs] at h
            exact StepResult.noConfusion h
        · rw [if_neg hb] at h
          split at h
          · rename_i a rest₁
            by_cases ha : _is_arg a = true
            · rw [if_pos ha] at h
              cases htr : _try_parse_arg o.type a with
              | val v =>
                simp only [htr] at h
                cases hs : _set_opt (markFound p i) (String.singleton c) v with
                | some p₂ =>
                  simp only [hs] at h
                  by_cases hg : o.greedy = true
                  · rw [if_pos hg] at h
                    cases hcg : consumeGreedyValues o.type p₂
                        (String.singleton c) rest₁ with
                    | ok p₃ rest₂ =>
                      simp only [hcg] at h
                      have hle1 := consumeGreedyValues_ok_length o.type
                        (String.singleton c) rest₁ p₂ p₃ rest₂ hcg
                      have hle2 := ih _ _ _ _ h
                      exact Nat.le_succ_of_le (Nat.le_trans hle2 hle1)
                    | exitErr m =>
                      simp only [hcg] at h
                      exact StepResult.noConfusion h
                    | exitOk m =>
                      simp only [hcg] at h
                      exact StepResult.noConfusion h
                    | raised m =>
                      simp only [hcg] at h
                      exact StepResult.noConfusion h
                  · rw [if_neg hg] at h
                    exact Nat.le_succ_of_le (ih _ _ _ _ h)
                | none =>
                  simp only [hs] at h
                  exact StepResult.noConfusion h
              | exitErr m =>
                simp only [htr] at h
                exact StepResult.noConfusion h
              | raised m =>
                simp only [htr] at h
                exact StepResult.noConfusion h
            · rw [if_neg ha] at h
              exact StepResult.noConfusion h
          · exact StepResult.noConfusion h

/-- The long-form handler only consumes tokens from the stream. -/
theorem _parse_longform_option_ok_length (p : ArgParser) (arg : String)
    (l : List String) (p' : ArgParser) (l' : List String)
    (h : _parse_longform_option p arg l = .ok p' l') :
    l'.length ≤ l.length := by
  unfold _parse_longform_option at h
  by_cases hce : containsChar arg '=' = true
  · rw [if_pos hce] at h
    cases hne : _parse_name_equals_value_option p "--" arg with
    | ok p₁ =>
      simp only [hne] at h
      injection h with h1 h2
      subst h2
      exact Nat.le_refl _
    | exitErr m =>
      simp only [hne] at h
      exact StepResult.noConfusion h
    | raised m =>
      simp only [hne] at h
      exact StepResult.noConfusion h
  · rw [if_neg hce] at h
    cases hlu : lookupOpt p arg with
    | none =>
      simp only [hlu] at h
      by_cases hh : arg = "help"
      · rw [if_pos hh] at h
        cases hht : p.helptext with
        | some ht =>
          simp only [hht] at h
          exact StepResult.noConfusion h
        | none =>
          simp only [hht] at h
          exact StepResult.noConfusion h
      · rw [if_neg hh] at h
        by_cases hv : arg = "version"
        · rw [if_pos hv] at h
          cases hvt : p.version with
          | some vs =>
            simp only [hvt] at h
            exact StepResult.noConfusion h
          | none =>
            simp only [hvt] at h
            exact StepResult.noConfusion h
        · rw [if_neg hv] at h
          exact StepResult.noConfusion h
    | some io =>
      obtain ⟨i, o⟩ := io
      simp only [hlu] at h
      by_cases hmf : (o.mono && o.found) = true
      · rw [if_pos hmf] at h
        exact StepResult.noConfusion h
      · rw [if_neg hmf] at h
        by_cases hb : o.type = OptType.bool
        · rw [if_pos hb] at h
          cases hs : _set_opt (markFound p i) arg (.bool true) with
          | some p₂ =>
            simp only [hs] at h
            injection h with h1 h2
            subst h2
            exact Nat.le_refl _
          | none =>
            simp only [hs] at h
            exact StepResult.noConfusion h
        · rw [if_neg hb] at h
          split at h
          · rename_i a rest₁
            by_cases ha : _is_arg a = true
            · rw [if_pos ha] at h
              cases htr : _try_parse_arg o.type a with
              | val v =>
                simp only [htr] at h
                cases hs : _set_opt (markFound p i) arg v with
                | some p₂ =>
                  simp only [hs] at h
                  by_cases hg : o.greedy = true
                  · rw [if_pos hg] at h
                    exact Nat.le_succ_of_le
                      (consumeGreedyValues_ok_length _ _ _ _ _ _ h)
                  · rw [if_neg hg] at h
                    injection h with h1 h2
                    subst h2
                    exact Nat.le_succ_of_le (Nat.le_refl _)
                | none =>
                  simp only [hs] at h
                  exact StepResult.noConfusion h
              | exitErr m =>
                simp only [htr] at h
                exact StepResult.noConfusion h
              | raised m =>
                simp only [htr] at h
                exact StepResult.noConfusion h
            · rw [if_neg ha] at h
              exact StepResult.noConfusion h
          · exact StepResult.noConfusion h

/-- The short-form handler only consumes tokens from the stream. -/
theorem _parse_shortform_option_ok_length (p : ArgParser) (arg : String)
    (l : List String) (p' : ArgParser) (l' : List String)
    (h : _parse_shortform_option p arg l = .ok p' l') :
    l'.length ≤ l.length := by
  unfold _parse_shortform_option at h
  by_cases hce : containsChar arg '=' = true
  · rw [if_pos hce] at h
    cases hne : _parse_name_equals_value_option p "-" arg with
    | ok p₁ =>
      simp only [hne] at h
      injection h with h1 h2
      subst h2
      exact Nat.le_refl _
    | exitErr m =>
      simp only [hne] at h
      exact StepResult.noConfusion h
    | raised m =>
      simp only [hne] at h
      exact StepResult.noConfusion h
  · rw [if_neg hce] at h
    exact shortformChars_ok_length _ _ _ _ _ h

/-- Fuel equal to the number of remaining tokens always suffices: every
iteration of the classification loop consumes at least one token, and
the command branch delegates a strictly shorter remainder. -/
theorem parseGo_ne_fuelOut :
    ∀ (fuel : Nat) (p : ArgParser) (parsing : Bool) (args : List String),
      args.length ≤ fuel → parseGo fuel p parsing args ≠ Outcome.fuelOut := by
  intro fuel
  induction fuel with
  | zero =>
    intro p parsing args h
    have hz : args = [] := List.length_eq_zero.mp (Nat.le_zero.mp h)
    subst hz
    simp [parseGo]
  | succ fuel ih =>
    intro p parsing args h
    cases args with
    | nil => simp [parseGo]
    | cons arg rest =>
      have hr : rest.length ≤ fuel := by
        simp only [List.length_cons] at h
        omega
      intro hx
      simp only [parseGo] at hx
      by_cases hp : parsing = false
      · rw [if_pos hp] at hx
        exact ih _ _ _ hr hx
      · rw [if_neg hp] at hx
        by_cases hdd : arg = "--"
        · rw [if_pos hdd] at hx
          exact ih _ _ _ hr hx
        · rw [if_neg hdd] at hx
          by_cases h2 : pyStartsWith arg "--" = true
          · rw [if_pos h2] at hx
            cases hlf : _parse_longform_option p
                (String.mk (arg.data.drop 2)) rest with
            | ok p₁ rest₁ =>
              simp only [hlf] at hx
              exact ih _ _ _ (Nat.le_trans
                (_parse_longform_option_ok_length _ _ _ _ _ hlf) hr) hx
            | exitErr m =>
              simp only [hlf] at hx
              exact Outcome.noConfusion hx
            | exitOk m =>
              simp only [hlf] at hx
              exact Outcome.noConfusion hx
            | raised m =>
              simp only [hlf] at hx
              exact Outcome.noConfusion hx
          · rw [if_neg h2] at hx
            by_cases h3 : pyStartsWith arg "-" = true
            · rw [if_pos h3] at hx
              by_cases h4 : (arg = "-" || secondCharIsDigit arg) = true
              · rw [if_pos h4] at hx
                exact ih _ _ _ hr hx
              · rw [if_neg h4] at hx
                cases hsf : _parse_shortform_option p
                    (String.mk (arg.data.drop 1)) rest with
                | ok p₁ rest₁ =>
                  simp only [hsf] at hx
                  exact ih _ _ _ (Nat.le_trans
                    (_parse_shortform_option_ok_length _ _ _ _ _ hsf) hr) hx
                | exitErr m =>
                  simp only [hsf] at hx
                  exact Outcome.noConfusion hx
                | exitOk m =>
                  simp only [hsf] at hx
                  exact Outcome.noConfusion hx
                | raised m =>
                  simp only [hsf] at hx
                  exact Outcome.noConfusion hx
            · rw [if_neg h3] at hx
              cases hcm : p.commands.lookup arg with
              | some cmdp =>
                simp only [hcm] at hx
                cases hcb : p.core.callbacks.lookup arg with
                | some cb =>
                  simp only [hcb] at hx
                  cases hnp : parseGo fuel cmdp true rest with
                  | ok np nevs =>
                    simp only [hnp] at hx
                    exact Outcome.noConfusion hx
                  | exitErr m =>
                    simp only [hnp] at hx
                    exact Outcome.noConfusion hx
                  | exitOk m =>
                    simp only [hnp] at hx
                    exact Outcome.noConfusion hx
                  | raised m =>
                    simp only [hnp] at hx
                    exact Outcome.noConfusion hx
                  | fuelOut => exact absurd hnp (ih _ _ _ hr)
                | none =>
                  simp only [hcb] at hx
                  exact Outcome.noConfusion hx
              | none =>
                simp only [hcm] at hx
                by_cases hh : arg = "help"
                · rw [if_pos hh] at hx
                  split at hx
                  · rename_i nm tl
                    cases hcn : p.commands.lookup nm with
                    | some c =>
                      simp only [hcn] at hx
                      cases hht : c.helptext with
                      | some ht =>
                        simp only [hht] at hx
                        exact Outcome.noConfusion hx
                      | none =>
                        simp only [hht] at hx
                        exact Outcome.noConfusion hx
                    | none =>
                      simp only [hcn] at hx
                      exact Outcome.noConfusion hx
                  · exact Outcome.noConfusion hx
                · rw [if_neg hh] at hx
                  exact ih _ _ _ hr hx

/-- Claim C9: parsing a finite token list always terminates within one
loop iteration per input token: running the classification loop with
fuel equal to the token count never reaches the fuel-exhaustion escape,
because every iteration consumes at least one token (the option
handlers only consume additional value tokens, per the `_ok_length`
lemmas above) and the command branch feeds the whole remainder — a
strictly shorter list — to the recursive subcommand parse and then
ends the loop. -/
theorem claim9_termination (p : ArgParser) (args : List String) :
    parse p args ≠ Outcome.fuelOut :=
  parseGo_ne_fuelOut args.length p true args (Nat.le_refl _)

end Clio
